import Mathlib

/-!
Verification of the issue aggregation and ranking engine of the
code-review-assistant repository: the deduplicator
(`backend/reviews/deduplicator.py`), the ranker
(`backend/reviews/ranking.py`) and the reviewer client
(`backend/llm/reviewer.py`) are shallowly embedded and the spec's claims
about them are settled.
-/

namespace CodeReviewAssistant

/-- Rule reference attached to an issue: the `\x7bid, link\x7d` object of the
data model (`rule` is either fully populated or null). -/
structure Rule where
  id : String
  link : String
deriving DecidableEq

/-- Issue record as it flows through the deduplicator and the ranker.
Python issues are string-keyed dicts; the keys the engine reads are modelled
as fields, the optional ones as `Option`. -/
structure Issue where
  line : Option Int := none
  line_start : Option Int := none
  line_end : Option Int := none
  severity : String
  message : String := ""
  rule : Option Rule := none
  source : Option String := none
deriving DecidableEq

/-- Lookup in the deduplicator's `SEVERITY_RANK` dict with default 0,
as the code's `SEVERITY_RANK.get(sev, 0)`. -/
def SEVERITY_RANK_get (s : String) : Nat :=
  if s = "low" then 1 else if s = "medium" then 2 else if s = "high" then 3 else 0

/-- Line normalization from `deduplicator._normalize_issue`: a single `line`
becomes `(line, line)`; otherwise `line_start`/`line_end` with default 0. -/
def normalize_issue (issue : Issue) : Int × Int :=
  match issue.line with
  | some l => (l, l)
  | none => (issue.line_start.getD 0, issue.line_end.getD 0)

/-- Identity key from `deduplicator._issue_key`.  The code hashes the
preimage string with sha256; the digest is modelled by the preimage itself
(sha256 is treated as injective). -/
def issue_key (file category : String) (line_start line_end : Int) : String :=
  file ++ ":" ++ category ++ ":" ++ toString line_start ++ ":" ++ toString line_end

/-- Five-category buckets: a Python dict category -> list of issues, in
insertion order. -/
abbrev Buckets := List (String × List Issue)

/-- The inner dict `merged[category]` keyed by issue key: association list in
insertion order, updated in place. -/
abbrev KeyedBucket := List (String × Issue)

/-- The `merged` dict of `deduplicate_reviews`. -/
abbrev Merged := List (String × KeyedBucket)

/-- Collision resolution of `deduplicate_reviews`: the new issue replaces the
existing one when its severity rank is strictly higher, or on a rank tie when
the existing issue has no rule and the new one does; otherwise the existing
issue is kept. -/
def resolve (existing issue : Issue) : Issue :=
  let existing_sev := SEVERITY_RANK_get existing.severity
  let new_sev := SEVERITY_RANK_get issue.severity
  if existing_sev < new_sev then issue
  else if existing_sev = new_sev ∧ existing.rule = none ∧ issue.rule ≠ none then issue
  else existing

/-- Insert into `merged[category]`: absent keys are appended (dict insertion
order), present keys resolve in place. -/
def bucketInsert (b : KeyedBucket) (k : String) (issue : Issue) : KeyedBucket :=
  match b with
  | [] => [(k, issue)]
  | (k0, v) :: rest =>
    if k0 = k then (k0, resolve v issue) :: rest
    else (k0, v) :: bucketInsert rest k issue

/-- The code's `merged.setdefault(category, \x7b\x7d)`. -/
def mergedSetdefault (m : Merged) (category : String) : Merged :=
  match m with
  | [] => [(category, [])]
  | (c, b) :: rest =>
    if c = category then (c, b) :: rest else (c, b) :: mergedSetdefault rest category

/-- Update `merged[category]` by inserting `issue` under key `k`. -/
def mergedUpdate (m : Merged) (category k : String) (issue : Issue) : Merged :=
  match m with
  | [] => []
  | (c, b) :: rest =>
    if c = category then (c, bucketInsert b k issue) :: rest
    else (c, b) :: mergedUpdate rest category k issue

/-- One loop body of `ingest`: copy the issue, stamp its source, compute the
key from the normalized line range and insert it. -/
def ingestIssue (file category source : String) (m : Merged) (issue0 : Issue) : Merged :=
  let issue := { issue0 with source := some source }
  let nl := normalize_issue issue
  mergedUpdate m category (issue_key file category nl.1 nl.2) issue

/-- Ingest one category's list of issues. -/
def ingestCategory (file source : String) (m : Merged) (cb : String × List Issue) : Merged :=
  (cb.2).foldl (ingestIssue file cb.1 source) (mergedSetdefault m cb.1)

/-- The inner `ingest` closure of `deduplicate_reviews`. -/
def ingest (file source : String) (reviews : Buckets) (m : Merged) : Merged :=
  reviews.foldl (ingestCategory file source) m

/-- `deduplicate_reviews` from `backend/reviews/deduplicator.py`: ingest the
static buckets, then the llm buckets, then drop the keys. -/
def deduplicate_reviews (file : String) (static_reviews llm_reviews : Buckets) : Buckets :=
  let m1 := ingest file "static" static_reviews []
  let m2 := ingest file "llm" llm_reviews m1
  m2.map (fun cb => (cb.1, cb.2.map Prod.snd))

theorem normalize_issue_stamp (r : Issue) (s : Option String) :
    normalize_issue { r with source := s } = normalize_issue r := rfl

/-- Two singleton buckets with the same normalized line range collapse to the
resolution of the static-stamped first record with the llm-stamped second. -/
theorem dedup_pair (file c : String) (a b : Issue)
    (hkey : normalize_issue a = normalize_issue b) :
    deduplicate_reviews file [(c, [a])] [(c, [b])] =
      [(c, [resolve { a with source := some "static" } { b with source := some "llm" }])] := by
  simp only [deduplicate_reviews, ingest, ingestCategory, List.foldl_cons, List.foldl_nil,
    mergedSetdefault, ingestIssue, normalize_issue_stamp, hkey, mergedUpdate, if_pos rfl,
    bucketInsert, List.map_cons, List.map_nil, ite_true]

theorem stamp_severity (r : Issue) (s : Option String) :
    ({ r with source := s } : Issue).severity = r.severity := rfl

theorem stamp_rule (r : Issue) (s : Option String) :
    ({ r with source := s } : Issue).rule = r.rule := rfl

theorem resolve_keep (e i : Issue)
    (h : ¬ SEVERITY_RANK_get e.severity < SEVERITY_RANK_get i.severity)
    (h2 : ¬ (SEVERITY_RANK_get e.severity = SEVERITY_RANK_get i.severity ∧
      e.rule = none ∧ i.rule ≠ none)) :
    resolve e i = e := by
  simp only [resolve]
  rw [if_neg h, if_neg h2]

theorem resolve_replace_of_gt (e i : Issue)
    (h : SEVERITY_RANK_get e.severity < SEVERITY_RANK_get i.severity) :
    resolve e i = i := by
  simp only [resolve]
  rw [if_pos h]

theorem resolve_replace_of_tie (e i : Issue)
    (h : SEVERITY_RANK_get e.severity = SEVERITY_RANK_get i.severity)
    (he : e.rule = none) (hi : i.rule ≠ none) :
    resolve e i = i := by
  simp only [resolve]
  rw [if_neg (by rw [h]; exact Nat.lt_irrefl _), if_pos ⟨h, he, hi⟩]

/-- C2: when two records share an identity key, the one with strictly higher
severity rank survives regardless of ingestion order; on a rank tie a record
with a non-null rule beats one with a null rule; otherwise the first-ingested
record survives.  Static records are ingested before llm records, and the
survivor is stamped with its source. -/
theorem dedup_merge_rule (file c : String) (r1 r2 : Issue)
    (hkey : normalize_issue r1 = normalize_issue r2) :
    (SEVERITY_RANK_get r2.severity < SEVERITY_RANK_get r1.severity →
      deduplicate_reviews file [(c, [r1])] [(c, [r2])] =
        [(c, [{ r1 with source := some "static" }])] ∧
      deduplicate_reviews file [(c, [r2])] [(c, [r1])] =
        [(c, [{ r1 with source := some "llm" }])]) ∧
    (SEVERITY_RANK_get r1.severity = SEVERITY_RANK_get r2.severity →
      r1.rule ≠ none → r2.rule = none →
      deduplicate_reviews file [(c, [r1])] [(c, [r2])] =
        [(c, [{ r1 with source := some "static" }])] ∧
      deduplicate_reviews file [(c, [r2])] [(c, [r1])] =
        [(c, [{ r1 with source := some "llm" }])]) ∧
    (SEVERITY_RANK_get r1.severity = SEVERITY_RANK_get r2.severity →
      (r1.rule = none ↔ r2.rule = none) →
      deduplicate_reviews file [(c, [r1])] [(c, [r2])] =
        [(c, [{ r1 with source := some "static" }])] ∧
      deduplicate_reviews file [(c, [r2])] [(c, [r1])] =
        [(c, [{ r2 with source := some "static" }])]) := by
  have h12 := dedup_pair file c r1 r2 hkey
  have h21 := dedup_pair file c r2 r1 hkey.symm
  refine ⟨fun hgt => ⟨?_, ?_⟩, fun heq h1 h2 => ⟨?_, ?_⟩, fun heq hiff => ⟨?_, ?_⟩⟩
  · rw [h12, resolve_keep]
    · exact fun hlt => absurd hgt (Nat.lt_asymm hlt)
    · rintro ⟨he, -, -⟩
      simp only [stamp_severity] at he
      omega
  · rw [h21, resolve_replace_of_gt]
    exact hgt
  · rw [h12, resolve_keep]
    · simp only [stamp_severity]
      rw [heq]
      exact Nat.lt_irrefl _
    · rintro ⟨-, he, -⟩
      rw [stamp_rule] at he
      exact h1 he
  · rw [h21, resolve_replace_of_tie]
    · simp only [stamp_severity]
      rw [heq]
    · rw [stamp_rule]
      exact h2
    · rw [stamp_rule]
      exact h1
  · rw [h12, resolve_keep]
    · simp only [stamp_severity]
      rw [heq]
      exact Nat.lt_irrefl _
    · rintro ⟨-, he, hi⟩
      rw [stamp_rule] at he hi
      exact hi (hiff.mp he)
  · rw [h21, resolve_keep]
    · simp only [stamp_severity]
      rw [heq]
      exact Nat.lt_irrefl _
    · rintro ⟨-, he, hi⟩
      rw [stamp_rule] at he hi
      exact hi (hiff.mpr he)

/-- Static medium-severity record used in concrete scenarios. -/
def exMedNoRule : Issue :=
  { line := some 10, severity := "medium", message := "Hook called conditionally" }

/-- High-severity record with a rule, used in concrete scenarios. -/
def exHighRule : Issue :=
  { line := some 10, severity := "high", message := "Hooks must be called at the top level",
    rule := some { id := "RH-01", link := "https://react.dev/reference/rules/rules-of-hooks" } }

theorem dedup_merge_rule_witness :
    deduplicate_reviews "test.js" [("correctness", [exHighRule])] [("correctness", [exMedNoRule])] =
      [("correctness", [{ exHighRule with source := some "static" }])] ∧
    deduplicate_reviews "test.js" [("correctness", [exMedNoRule])] [("correctness", [exHighRule])] =
      [("correctness", [{ exHighRule with source := some "llm" }])] :=
  (dedup_merge_rule "test.js" "correctness" exHighRule exMedNoRule rfl).1 (by decide)

/-- C10: a severity outside low/medium/high is ranked 0 by the defaulted
dict lookup (so the deduplicator does not raise on it), and a record with a
recognized severity strictly beats a record with an unrecognized severity
under the same key, in either ingestion order. -/
theorem dedup_unknown_severity (file c : String) (good bad : Issue)
    (hkey : normalize_issue good = normalize_issue bad)
    (hgood : good.severity = "low" ∨ good.severity = "medium" ∨ good.severity = "high")
    (hbad : ¬ (bad.severity = "low" ∨ bad.severity = "medium" ∨ bad.severity = "high")) :
    SEVERITY_RANK_get bad.severity = 0 ∧
    deduplicate_reviews file [(c, [good])] [(c, [bad])] =
      [(c, [{ good with source := some "static" }])] ∧
    deduplicate_reviews file [(c, [bad])] [(c, [good])] =
      [(c, [{ good with source := some "llm" }])] := by
  push_neg at hbad
  obtain ⟨hb1, hb2, hb3⟩ := hbad
  have hbad0 : SEVERITY_RANK_get bad.severity = 0 := by
    simp [SEVERITY_RANK_get, hb1, hb2, hb3]
  have hgood1 : 1 ≤ SEVERITY_RANK_get good.severity := by
    rcases hgood with h | h | h <;> simp [SEVERITY_RANK_get, h]
  refine ⟨hbad0, ?_, ?_⟩
  · rw [dedup_pair file c good bad hkey, resolve_keep]
    · simp only [stamp_severity]
      rw [hbad0]
      omega
    · rintro ⟨he, -, -⟩
      simp only [stamp_severity] at he
      rw [hbad0] at he
      omega
  · rw [dedup_pair file c bad good hkey.symm, resolve_replace_of_gt]
    simp only [stamp_severity]
    rw [hbad0]
    omega

theorem dedup_unknown_severity_witness :
    SEVERITY_RANK_get (Issue.severity { line := some 3, severity := "HIGH" }) = 0 ∧
    deduplicate_reviews "a.py" [("security", [{ line := some 3, severity := "high" }])]
        [("security", [{ line := some 3, severity := "HIGH" }])] =
      [("security", [{ line := some 3, severity := "high", source := some "static" }])] ∧
    deduplicate_reviews "a.py" [("security", [{ line := some 3, severity := "HIGH" }])]
        [("security", [{ line := some 3, severity := "high" }])] =
      [("security", [{ line := some 3, severity := "high", source := some "llm" }])] :=
  dedup_unknown_severity "a.py" "security" { line := some 3, severity := "high" }
    { line := some 3, severity := "HIGH" } rfl (by decide) (by decide)

/-- Identity key of an issue as the deduplicator computes it. -/
def keyOf (file c : String) (i : Issue) : String :=
  issue_key file c (normalize_issue i).1 (normalize_issue i).2

theorem keyOf_stamp (file c : String) (i : Issue) (s : Option String) :
    keyOf file c { i with source := s } = keyOf file c i := rfl

theorem resolve_cases (e i : Issue) : resolve e i = e ∨ resolve e i = i := by
  simp only [resolve]
  split_ifs <;> simp

theorem bucketInsert_keys (b : KeyedBucket) (k : String) (i : Issue) :
    ((bucketInsert b k i).map Prod.fst = b.map Prod.fst ∧ k ∈ b.map Prod.fst) ∨
    ((bucketInsert b k i).map Prod.fst = b.map Prod.fst ++ [k] ∧ k ∉ b.map Prod.fst) := by
  induction b with
  | nil =>
    right
    simp [bucketInsert]
  | cons kv rest ih =>
    obtain ⟨k0, v⟩ := kv
    by_cases h : k0 = k
    · left
      subst h
      simp [bucketInsert]
    · rcases ih with ⟨h1, h2⟩ | ⟨h1, h2⟩
      · left
        constructor
        · simp [bucketInsert, h, h1]
        · simp [h2]
      · right
        constructor
        · simp [bucketInsert, h, h1]
        · simp only [List.map_cons, List.mem_cons]
          rintro (h3 | h3)
          · exact h h3.symm
          · exact h2 h3

theorem bucketInsert_mem_keys (b : KeyedBucket) (k : String) (i : Issue) :
    k ∈ (bucketInsert b k i).map Prod.fst := by
  rcases bucketInsert_keys b k i with ⟨h1, h2⟩ | ⟨h1, h2⟩ <;> simp [h1, h2]

theorem bucketInsert_mem_keys_of_mem (b : KeyedBucket) (k k0 : String) (i : Issue)
    (h : k0 ∈ b.map Prod.fst) : k0 ∈ (bucketInsert b k i).map Prod.fst := by
  rcases bucketInsert_keys b k i with ⟨h1, -⟩ | ⟨h1, -⟩ <;> simp [h1, h]

theorem bucketInsert_pairwise (b : KeyedBucket) (k : String) (i : Issue)
    (hb : (b.map Prod.fst).Pairwise (· ≠ ·)) :
    ((bucketInsert b k i).map Prod.fst).Pairwise (· ≠ ·) := by
  rcases bucketInsert_keys b k i with ⟨h1, -⟩ | ⟨h1, h2⟩
  · rw [h1]
    exact hb
  · rw [h1, List.pairwise_append]
    exact ⟨hb, List.pairwise_singleton _ _, by
      intro a ha b hb'
      rw [List.mem_singleton] at hb'
      subst hb'
      exact fun hak => h2 (hak ▸ ha)⟩

theorem bucketInsert_values (κ : Issue → String) (b : KeyedBucket) (k : String) (i : Issue)
    (hb : ∀ kv ∈ b, kv.1 = κ kv.2) (hi : κ i = k) :
    ∀ kv ∈ bucketInsert b k i, kv.1 = κ kv.2 := by
  induction b with
  | nil =>
    intro kv hkv
    simp only [bucketInsert, List.mem_singleton] at hkv
    subst hkv
    exact hi.symm
  | cons kv0 rest ih =>
    obtain ⟨k0, v⟩ := kv0
    intro kv hkv
    by_cases h : k0 = k
    · simp only [bucketInsert, if_pos h, List.mem_cons] at hkv
      rcases hkv with hkv | hkv
      · subst hkv
        rcases resolve_cases v i with hr | hr
        · rw [hr]
          exact hb (k0, v) (List.mem_cons_self _ _)
        · rw [hr, hi, h]
      · exact hb kv (List.mem_cons_of_mem _ hkv)
    · simp only [bucketInsert, if_neg h, List.mem_cons] at hkv
      rcases hkv with hkv | hkv
      · subst hkv
        exact hb (k0, v) (List.mem_cons_self _ _)
      · exact ih (fun kv' h' => hb kv' (List.mem_cons_of_mem _ h')) kv hkv

/-- Structural invariant of the `merged` dict: within each category the stored
keys are pairwise distinct and each stored issue sits under its own key. -/
def MergedInv (file : String) (m : Merged) : Prop :=
  ∀ cb ∈ m, ((cb.2).map Prod.fst).Pairwise (· ≠ ·) ∧
    ∀ kv ∈ cb.2, kv.1 = keyOf file cb.1 kv.2

/-- Some bucket of category `c` contains key `k`. -/
def KeyPresent (m : Merged) (c k : String) : Prop :=
  ∃ b, (c, b) ∈ m ∧ k ∈ b.map Prod.fst

/-- Category `c` has a bucket. -/
def CatPresent (m : Merged) (c : String) : Prop :=
  ∃ b, (c, b) ∈ m

theorem mergedSetdefault_inv (file : String) (m : Merged) (c : String)
    (h : MergedInv file m) : MergedInv file (mergedSetdefault m c) := by
  induction m with
  | nil =>
    intro cb hcb
    simp only [mergedSetdefault, List.mem_singleton] at hcb
    subst hcb
    simp
  | cons cb0 rest ih =>
    obtain ⟨c0, b0⟩ := cb0
    by_cases hc : c0 = c
    · simpa [mergedSetdefault, hc] using h
    · intro cb hcb
      simp only [mergedSetdefault, if_neg hc, List.mem_cons] at hcb
      rcases hcb with hcb | hcb
      · exact h cb (by simp [hcb])
      · exact ih (fun cb' h' => h cb' (List.mem_cons_of_mem _ h')) cb hcb

theorem mergedUpdate_inv (file : String) (m : Merged) (c k : String) (i : Issue)
    (h : MergedInv file m) (hi : keyOf file c i = k) :
    MergedInv file (mergedUpdate m c k i) := by
  induction m with
  | nil =>
    intro cb hcb
    simp [mergedUpdate] at hcb
  | cons cb0 rest ih =>
    obtain ⟨c0, b0⟩ := cb0
    by_cases hc : c0 = c
    · intro cb hcb
      simp only [mergedUpdate, if_pos hc, List.mem_cons] at hcb
      rcases hcb with hcb | hcb
      · subst hcb
        obtain ⟨hp, hv⟩ := h (c0, b0) (List.mem_cons_self _ _)
        refine ⟨bucketInsert_pairwise _ _ _ hp, ?_⟩
        exact bucketInsert_values (keyOf file c0) b0 k i hv (by rw [hc]; exact hi)
      · exact h cb (List.mem_cons_of_mem _ hcb)
    · intro cb hcb
      simp only [mergedUpdate, if_neg hc, List.mem_cons] at hcb
      rcases hcb with hcb | hcb
      · exact h cb (by simp [hcb])
      · exact ih (fun cb' h' => h cb' (List.mem_cons_of_mem _ h')) cb hcb

theorem mergedSetdefault_keyPresent (m : Merged) (c c' k : String)
    (h : KeyPresent m c' k) : KeyPresent (mergedSetdefault m c) c' k := by
  induction m with
  | nil =>
    obtain ⟨b, hb, -⟩ := h
    simp at hb
  | cons cb0 rest ih =>
    obtain ⟨c0, b0⟩ := cb0
    obtain ⟨b, hb, hk⟩ := h
    by_cases hc : c0 = c
    · exact ⟨b, by simpa [mergedSetdefault, hc] using hb, hk⟩
    · simp only [List.mem_cons] at hb
      rcases hb with hb | hb
      · exact ⟨b, by simp [mergedSetdefault, if_neg hc, hb], hk⟩
      · obtain ⟨b', hb', hk'⟩ := ih ⟨b, hb, hk⟩
        exact ⟨b', by simp [mergedSetdefault, if_neg hc, List.mem_cons_of_mem _ hb'], hk'⟩

theorem mergedSetdefault_catPresent (m : Merged) (c : String) :
    CatPresent (mergedSetdefault m c) c := by
  induction m with
  | nil => exact ⟨[], by simp [mergedSetdefault]⟩
  | cons cb0 rest ih =>
    obtain ⟨c0, b0⟩ := cb0
    by_cases hc : c0 = c
    · exact ⟨b0, by simp [mergedSetdefault, hc]⟩
    · obtain ⟨b, hb⟩ := ih
      exact ⟨b, by simp [mergedSetdefault, if_neg hc, List.mem_cons_of_mem _ hb]⟩

theorem mergedSetdefault_catPresent_of (m : Merged) (c c' : String)
    (h : CatPresent m c') : CatPresent (mergedSetdefault m c) c' := by
  induction m with
  | nil =>
    obtain ⟨b, hb⟩ := h
    simp at hb
  | cons cb0 rest ih =>
    obtain ⟨c0, b0⟩ := cb0
    obtain ⟨b, hb⟩ := h
    by_cases hc : c0 = c
    · exact ⟨b, by simpa [mergedSetdefault, hc] using hb⟩
    · simp only [List.mem_cons] at hb
      rcases hb with hb | hb
      · exact ⟨b, by simp [mergedSetdefault, if_neg hc, hb]⟩
      · obtain ⟨b', hb'⟩ := ih ⟨b, hb⟩
        exact ⟨b', by simp [mergedSetdefault, if_neg hc, List.mem_cons_of_mem _ hb']⟩

theorem mergedUpdate_keyPresent (m : Merged) (c c' k k' : String) (i : Issue)
    (h : KeyPresent m c' k') : KeyPresent (mergedUpdate m c k i) c' k' := by
  induction m with
  | nil =>
    obtain ⟨b, hb, -⟩ := h
    simp at hb
  | cons cb0 rest ih =>
    obtain ⟨c0, b0⟩ := cb0
    obtain ⟨b, hb, hk⟩ := h
    simp only [List.mem_cons] at hb
    by_cases hc : c0 = c
    · rcases hb with hb | hb
      · rw [Prod.mk.injEq] at hb
        refine ⟨bucketInsert b0 k i, by simp [mergedUpdate, if_pos hc, hb.1], ?_⟩
        rw [hb.2] at hk
        exact bucketInsert_mem_keys_of_mem _ _ _ _ hk
      · exact ⟨b, by simp [mergedUpdate, if_pos hc, List.mem_cons_of_mem _ hb], hk⟩
    · rcases hb with hb | hb
      · exact ⟨b, by simp [mergedUpdate, if_neg hc, hb], hk⟩
      · obtain ⟨b', hb', hk'⟩ := ih ⟨b, hb, hk⟩
        exact ⟨b', by simp [mergedUpdate, if_neg hc, List.mem_cons_of_mem _ hb'], hk'⟩

theorem mergedUpdate_catPresent (m : Merged) (c c' k : String) (i : Issue)
    (h : CatPresent m c') : CatPresent (mergedUpdate m c k i) c' := by
  induction m with
  | nil =>
    obtain ⟨b, hb⟩ := h
    simp at hb
  | cons cb0 rest ih =>
    obtain ⟨c0, b0⟩ := cb0
    obtain ⟨b, hb⟩ := h
    simp only [List.mem_cons] at hb
    by_cases hc : c0 = c
    · rcases hb with hb | hb
      · rw [Prod.mk.injEq] at hb
        exact ⟨bucketInsert b0 k i, by simp [mergedUpdate, if_pos hc, hb.1]⟩
      · exact ⟨b, by simp [mergedUpdate, if_pos hc, List.mem_cons_of_mem _ hb]⟩
    · rcases hb with hb | hb
      · exact ⟨b, by simp [mergedUpdate, if_neg hc, hb]⟩
      · obtain ⟨b', hb'⟩ := ih ⟨b, hb⟩
        exact ⟨b', by simp [mergedUpdate, if_neg hc, List.mem_cons_of_mem _ hb']⟩

theorem mergedUpdate_inserts (m : Merged) (c k : String) (i : Issue)
    (h : CatPresent m c) : KeyPresent (mergedUpdate m c k i) c k := by
  induction m with
  | nil =>
    obtain ⟨b, hb⟩ := h
    simp at hb
  | cons cb0 rest ih =>
    obtain ⟨c0, b0⟩ := cb0
    by_cases hc : c0 = c
    · exact ⟨bucketInsert b0 k i, by simp [mergedUpdate, if_pos hc, hc],
        bucketInsert_mem_keys _ _ _⟩
    · obtain ⟨b, hb⟩ := h
      simp only [List.mem_cons] at hb
      rcases hb with hb | hb
      · rw [Prod.mk.injEq] at hb
        exact absurd hb.1.symm hc
      · obtain ⟨b', hb', hk'⟩ := ih ⟨b, hb⟩
        exact ⟨b', by simp [mergedUpdate, if_neg hc, List.mem_cons_of_mem _ hb'], hk'⟩

theorem ingestIssue_inv (file c src : String) (m : Merged) (i : Issue)
    (h : MergedInv file m) : MergedInv file (ingestIssue file c src m i) :=
  mergedUpdate_inv file m c _ _ h rfl

theorem ingestIssue_keyPresent (file c src c' k : String) (m : Merged) (i : Issue)
    (h : KeyPresent m c' k) : KeyPresent (ingestIssue file c src m i) c' k :=
  mergedUpdate_keyPresent m c c' _ k _ h

theorem ingestIssue_catPresent (file c src c' : String) (m : Merged) (i : Issue)
    (h : CatPresent m c') : CatPresent (ingestIssue file c src m i) c' :=
  mergedUpdate_catPresent m c c' _ _ h

theorem ingestIssue_inserts (file c src : String) (m : Merged) (i : Issue)
    (h : CatPresent m c) : KeyPresent (ingestIssue file c src m i) c (keyOf file c i) :=
  mergedUpdate_inserts m c _ _ h

theorem foldl_ingestIssue_inv (file c src : String) (issues : List Issue) (m : Merged)
    (h : MergedInv file m) :
    MergedInv file (issues.foldl (ingestIssue file c src) m) := by
  induction issues generalizing m with
  | nil => exact h
  | cons i rest ih => exact ih _ (ingestIssue_inv file c src m i h)

theorem foldl_ingestIssue_keyPresent (file c src c' k : String) (issues : List Issue)
    (m : Merged) (h : KeyPresent m c' k) :
    KeyPresent (issues.foldl (ingestIssue file c src) m) c' k := by
  induction issues generalizing m with
  | nil => exact h
  | cons i rest ih => exact ih _ (ingestIssue_keyPresent file c src c' k m i h)

theorem foldl_ingestIssue_catPresent (file c src c' : String) (issues : List Issue)
    (m : Merged) (h : CatPresent m c') :
    CatPresent (issues.foldl (ingestIssue file c src) m) c' := by
  induction issues generalizing m with
  | nil => exact h
  | cons i rest ih => exact ih _ (ingestIssue_catPresent file c src c' m i h)

theorem foldl_ingestIssue_covers (file c src : String) (issues : List Issue) (m : Merged)
    (hc : CatPresent m c) :
    ∀ i ∈ issues, KeyPresent (issues.foldl (ingestIssue file c src) m) c (keyOf file c i) := by
  induction issues generalizing m with
  | nil =>
    intro i hi
    simp at hi
  | cons i0 rest ih =>
    intro i hi
    rcases List.mem_cons.mp hi with hi | hi
    · subst hi
      exact foldl_ingestIssue_keyPresent file c src c _ rest _
        (by simpa [keyOf_stamp] using ingestIssue_inserts file c src m i hc)
    · exact ih _ (ingestIssue_catPresent file c src c m i0 hc) i hi

theorem ingestCategory_inv (file src : String) (m : Merged) (cb : String × List Issue)
    (h : MergedInv file m) : MergedInv file (ingestCategory file src m cb) :=
  foldl_ingestIssue_inv file cb.1 src cb.2 _ (mergedSetdefault_inv file m cb.1 h)

theorem ingestCategory_keyPresent (file src c' k : String) (m : Merged)
    (cb : String × List Issue) (h : KeyPresent m c' k) :
    KeyPresent (ingestCategory file src m cb) c' k :=
  foldl_ingestIssue_keyPresent file cb.1 src c' k cb.2 _
    (mergedSetdefault_keyPresent m cb.1 c' k h)

theorem ingestCategory_catPresent (file src c' : String) (m : Merged)
    (cb : String × List Issue) (h : CatPresent m c') :
    CatPresent (ingestCategory file src m cb) c' :=
  foldl_ingestIssue_catPresent file cb.1 src c' cb.2 _
    (mergedSetdefault_catPresent_of m cb.1 c' h)

theorem ingestCategory_covers (file src : String) (m : Merged) (cb : String × List Issue) :
    ∀ i ∈ cb.2, KeyPresent (ingestCategory file src m cb) cb.1 (keyOf file cb.1 i) :=
  foldl_ingestIssue_covers file cb.1 src cb.2 _ (mergedSetdefault_catPresent m cb.1)

theorem ingest_inv (file src : String) (reviews : Buckets) (m : Merged)
    (h : MergedInv file m) : MergedInv file (ingest file src reviews m) := by
  induction reviews generalizing m with
  | nil => exact h
  | cons cb rest ih => exact ih _ (ingestCategory_inv file src m cb h)

theorem ingest_keyPresent (file src c' k : String) (reviews : Buckets) (m : Merged)
    (h : KeyPresent m c' k) : KeyPresent (ingest file src reviews m) c' k := by
  induction reviews generalizing m with
  | nil => exact h
  | cons cb rest ih => exact ih _ (ingestCategory_keyPresent file src c' k m cb h)

theorem ingest_covers (file src : String) (reviews : Buckets) (m : Merged) :
    ∀ cb ∈ reviews, ∀ i ∈ cb.2,
      KeyPresent (ingest file src reviews m) cb.1 (keyOf file cb.1 i) := by
  induction reviews generalizing m with
  | nil =>
    intro cb hcb
    simp at hcb
  | cons cb0 rest ih =>
    intro cb hcb i hi
    rcases List.mem_cons.mp hcb with hcb | hcb
    · subst hcb
      exact ingest_keyPresent file src cb.1 _ rest _
        (ingestCategory_covers file src m cb i hi)
    · exact ih _ cb hcb i hi

/-- C8: the deduplicator's output has at most one record per identity key
within each category (the surviving records have pairwise distinct keys), and
every ingested input record is represented in the output by some record with
its identity key — itself or the record that superseded it. -/
theorem dedup_key_invariant (file : String) (static_reviews llm_reviews : Buckets) :
    (∀ cb ∈ deduplicate_reviews file static_reviews llm_reviews,
      (cb.2).Pairwise (fun a b => keyOf file cb.1 a ≠ keyOf file cb.1 b)) ∧
    (∀ cb ∈ static_reviews ++ llm_reviews, ∀ i ∈ cb.2,
      ∃ b, (cb.1, b) ∈ deduplicate_reviews file static_reviews llm_reviews ∧
        ∃ r ∈ b, keyOf file cb.1 r = keyOf file cb.1 i) := by
  have hinv : MergedInv file
      (ingest file "llm" llm_reviews (ingest file "static" static_reviews [])) :=
    ingest_inv file "llm" llm_reviews _
      (ingest_inv file "static" static_reviews [] (by intro cb hcb; simp at hcb))
  constructor
  · intro cb hcb
    simp only [deduplicate_reviews, List.mem_map] at hcb
    obtain ⟨⟨c0, b0⟩, hm, hcb⟩ := hcb
    obtain ⟨hp, hv⟩ := hinv (c0, b0) hm
    subst hcb
    have hmapeq : b0.map Prod.fst = (b0.map Prod.snd).map (keyOf file c0) := by
      rw [List.map_map]
      exact List.map_congr_left (fun kv hkv => hv kv hkv)
    rw [hmapeq, List.pairwise_map] at hp
    exact hp
  · intro cb hcb i hi
    have hkp : KeyPresent
        (ingest file "llm" llm_reviews (ingest file "static" static_reviews []))
        cb.1 (keyOf file cb.1 i) := by
      rcases List.mem_append.mp hcb with hcb | hcb
      · exact ingest_keyPresent file "llm" cb.1 _ llm_reviews _
          (ingest_covers file "static" static_reviews [] cb hcb i hi)
      · exact ingest_covers file "llm" llm_reviews _ cb hcb i hi
    obtain ⟨b, hbm, hk⟩ := hkp
    obtain ⟨kv, hkv, hkfst⟩ := List.mem_map.mp hk
    refine ⟨b.map Prod.snd, ?_, kv.2, List.mem_map_of_mem _ hkv, ?_⟩
    · simp only [deduplicate_reviews, List.mem_map]
      exact ⟨(cb.1, b), hbm, rfl⟩
    · rw [← (hinv (cb.1, b) hbm).2 kv hkv, hkfst]

theorem dedup_key_invariant_witness :
    ∃ b, ("correctness", b) ∈
        deduplicate_reviews "test.js" [("correctness", [exMedNoRule])]
          [("correctness", [exHighRule])] ∧
      ∃ r ∈ b, keyOf "test.js" "correctness" r = keyOf "test.js" "correctness" exMedNoRule :=
  (dedup_key_invariant "test.js" [("correctness", [exMedNoRule])]
      [("correctness", [exHighRule])]).2
    ("correctness", [exMedNoRule]) (by decide) exMedNoRule (by decide)

/-- Lookup in the ranker's `SEVERITY_WEIGHT` dict; Python's
`SEVERITY_WEIGHT[severity]` raises `KeyError` on a missing key, modelled as
`none`. -/
def SEVERITY_WEIGHT_find (s : String) : Option Nat :=
  if s = "critical" then some 4
  else if s = "high" then some 3
  else if s = "medium" then some 2
  else if s = "low" then some 1
  else none

/-- Lookup in the ranker's `CATEGORY_REACH` dict with default 1.0, as the
code's `CATEGORY_REACH.get(category, 1.0)`. -/
def CATEGORY_REACH_get (c : String) : ℚ :=
  if c = "correctness" then 3 / 2
  else if c = "security" then 3 / 2
  else if c = "complexity" then 6 / 5
  else if c = "readability" then 1
  else if c = "tests" then 1
  else 1

/-- Python's `round(x, 2)` on rationals: scale by 100, round to the nearest
integer, scale back.  Every impact the ranker produces is an exact multiple
of 1/100, so no tie-breaking behaviour of the rounding is exercised. -/
def round2 (q : ℚ) : ℚ := (round (q * 100) : ℚ) / 100

/-- `compute_impact` from `backend/reviews/ranking.py`: severity weight times
source confidence (1.0 for llm, which is also the default for a missing
source, else 0.7) times category reach, rounded to two decimals.  `none`
models the `KeyError` on an unknown severity. -/
def compute_impact (issue : Issue) (category : String) : Option ℚ :=
  match SEVERITY_WEIGHT_find issue.severity with
  | none => none
  | some severity_score =>
    let source := issue.source.getD "llm"
    let confidence : ℚ := if source = "llm" then 1 else 7 / 10
    let reach := CATEGORY_REACH_get category
    some (round2 (severity_score * confidence * reach))

/-- Issue annotated by the ranker with its category and impact (the code
copies the dict and adds the two keys). -/
structure RankedIssue where
  issue : Issue
  category : String
  impact : ℚ
deriving DecidableEq

/-- Annotate one category's issues with their impact, in order; `none` models
the propagated `KeyError`. -/
def annotateBucket (category : String) : List Issue → Option (List RankedIssue)
  | [] => some []
  | i :: rest =>
    match compute_impact i category, annotateBucket category rest with
    | some q, some rs => some ({ issue := i, category := category, impact := q } :: rs)
    | _, _ => none

/-- The `ranked` list of `rank_reviews` before sorting: buckets flattened in
dict iteration order. -/
def annotate : Buckets → Option (List RankedIssue)
  | [] => some []
  | cb :: rest =>
    match annotateBucket cb.1 cb.2, annotate rest with
    | some rs, some rest0 => some (rs ++ rest0)
    | _, _ => none

/-- Descending-impact comparison used by the final sort. -/
def impactGe (x y : RankedIssue) : Prop := y.impact ≤ x.impact

instance : DecidableRel impactGe :=
  fun x y => inferInstanceAs (Decidable (y.impact ≤ x.impact))

instance : IsTotal RankedIssue impactGe :=
  ⟨fun x y => le_total y.impact x.impact⟩

instance : IsTrans RankedIssue impactGe :=
  ⟨fun _ _ _ h1 h2 => le_trans h2 h1⟩

/-- `rank_reviews` from `backend/reviews/ranking.py`: annotate every issue
with category and impact, then sort by impact descending.  Python's
`list.sort(key=..., reverse=True)` is a stable descending sort, modelled by
the stable `List.insertionSort` under `impactGe`. -/
def rank_reviews (reviews : Buckets) : Option (List RankedIssue) :=
  (annotate reviews).map (fun l => l.insertionSort impactGe)

theorem compute_impact_isSome (i : Issue) (c : String)
    (h : i.severity = "critical" ∨ i.severity = "high" ∨
      i.severity = "medium" ∨ i.severity = "low") :
    ∃ q, compute_impact i c = some q := by
  rcases h with h | h | h | h <;>
    simp [compute_impact, SEVERITY_WEIGHT_find, h]

theorem annotateBucket_isSome (c : String) (issues : List Issue)
    (h : ∀ i ∈ issues, i.severity = "critical" ∨ i.severity = "high" ∨
      i.severity = "medium" ∨ i.severity = "low") :
    ∃ l, annotateBucket c issues = some l := by
  induction issues with
  | nil => exact ⟨[], rfl⟩
  | cons i rest ih =>
    obtain ⟨q, hq⟩ := compute_impact_isSome i c (h i (List.mem_cons_self _ _))
    obtain ⟨l, hl⟩ := ih (fun i' h' => h i' (List.mem_cons_of_mem _ h'))
    exact ⟨_, by rw [annotateBucket, hq, hl]⟩

theorem annotate_isSome (reviews : Buckets)
    (h : ∀ cb ∈ reviews, ∀ i ∈ cb.2, i.severity = "critical" ∨ i.severity = "high" ∨
      i.severity = "medium" ∨ i.severity = "low") :
    ∃ l, annotate reviews = some l := by
  induction reviews with
  | nil => exact ⟨[], rfl⟩
  | cons cb rest ih =>
    obtain ⟨l1, hl1⟩ := annotateBucket_isSome cb.1 cb.2 (h cb (List.mem_cons_self _ _))
    obtain ⟨l2, hl2⟩ := ih (fun cb' h' => h cb' (List.mem_cons_of_mem _ h'))
    exact ⟨_, by rw [annotate, hl1, hl2]⟩

theorem pairwise_filter_of {α : Type} (p : α → Bool) (R : α → α → Prop)
    (h : ∀ a b, p a = true → p b = true → R a b) :
    ∀ l : List α, (l.filter p).Pairwise R := by
  intro l
  induction l with
  | nil => simp
  | cons a rest ih =>
    by_cases hp : p a = true
    · rw [List.filter_cons_of_pos hp]
      refine List.Pairwise.cons ?_ ih
      intro b hb
      exact h a b hp (List.of_mem_filter hb)
    · rw [List.filter_cons_of_neg (by simpa using hp)]
      exact ih

/-- Stability of the descending sort: elements of any fixed impact appear in
the output exactly as they appear in the input. -/
theorem insertionSort_stable_filter (l : List RankedIssue) (q : ℚ) :
    (l.insertionSort impactGe).filter (fun r => decide (r.impact = q)) =
      l.filter (fun r => decide (r.impact = q)) := by
  set p : RankedIssue → Bool := fun r => decide (r.impact = q) with hp
  have hpair : (l.filter p).Pairwise impactGe := by
    refine pairwise_filter_of p impactGe ?_ l
    intro a b ha hb
    simp only [hp, decide_eq_true_eq] at ha hb
    rw [impactGe, ha, hb]
  have hsub : List.Sublist (l.filter p) (l.insertionSort impactGe) :=
    List.sublist_insertionSort hpair (List.filter_sublist l)
  have hsub2 : List.Sublist ((l.filter p).filter p) ((l.insertionSort impactGe).filter p) :=
    hsub.filter p
  rw [List.filter_filter] at hsub2
  have hself : (l.filter fun a => p a && p a) = l.filter p := by
    apply List.filter_congr
    intro a _
    cases p a <;> rfl
  rw [hself] at hsub2
  have hperm : ((l.insertionSort impactGe).filter p).length = (l.filter p).length :=
    ((List.perm_insertionSort impactGe l).filter p).length_eq
  exact (hsub2.eq_of_length hperm.symm).symm

/-- C5: on buckets whose severities are all recognized, `rank_reviews`
returns a result (never raises), its impacts are non-increasing, and
equal-impact records keep their encounter order. -/
theorem rank_reviews_sorted_stable (reviews : Buckets)
    (h : ∀ cb ∈ reviews, ∀ i ∈ cb.2, i.severity = "critical" ∨ i.severity = "high" ∨
      i.severity = "medium" ∨ i.severity = "low") :
    ∃ flat, annotate reviews = some flat ∧
      rank_reviews reviews = some (flat.insertionSort impactGe) ∧
      (flat.insertionSort impactGe).Pairwise (fun x y => y.impact ≤ x.impact) ∧
      ∀ q : ℚ, (flat.insertionSort impactGe).filter (fun r => decide (r.impact = q)) =
        flat.filter (fun r => decide (r.impact = q)) := by
  obtain ⟨flat, hflat⟩ := annotate_isSome reviews h
  refine ⟨flat, hflat, ?_, ?_, fun q => insertionSort_stable_filter flat q⟩
  · rw [rank_reviews, hflat]
    rfl
  · exact List.sorted_insertionSort impactGe flat

/-- Example llm correctness issue of the spec's confidence-weighting
scenario. -/
def exLlmHigh : Issue :=
  { line := some 10, severity := "high",
    message := "Hooks must be called at the top level",
    rule := some { id := "RH-01", link := "https://react.dev/reference/rules/rules-of-hooks" },
    source := some "llm" }

/-- Example static readability issue of the spec's confidence-weighting
scenario. -/
def exStaticLow : Issue :=
  { line := some 2, severity := "low", message := "Missing semicolon",
    source := some "static" }

theorem rank_reviews_sorted_stable_witness :
    ∃ flat,
      annotate [("correctness", [exLlmHigh]), ("readability", [exStaticLow])] = some flat ∧
      rank_reviews [("correctness", [exLlmHigh]), ("readability", [exStaticLow])] =
        some (flat.insertionSort impactGe) ∧
      (flat.insertionSort impactGe).Pairwise (fun x y => y.impact ≤ x.impact) ∧
      ∀ q : ℚ, (flat.insertionSort impactGe).filter (fun r => decide (r.impact = q)) =
        flat.filter (fun r => decide (r.impact = q)) :=
  rank_reviews_sorted_stable [("correctness", [exLlmHigh]), ("readability", [exStaticLow])]
    (by decide)

/-- Modelled from the spec: the severityWeight table of the Ranker contract
(critical=4, high=3, medium=2, low=1). -/
def specSeverityWeight (s : String) : ℚ :=
  if s = "critical" then 4
  else if s = "high" then 3
  else if s = "medium" then 2
  else if s = "low" then 1
  else 0

/-- Modelled from the spec: the sourceConfidence table of the Ranker contract
(llm=1.0, static=0.7). -/
def specSourceConfidence (s : String) : ℚ :=
  if s = "llm" then 1
  else if s = "static" then 7 / 10
  else 0

/-- Modelled from the spec: the categoryReach table of the Ranker contract
(correctness=1.5, security=1.5, complexity=1.2, readability=1.0, tests=1.0). -/
def specCategoryReach (c : String) : ℚ :=
  if c = "correctness" then 3 / 2
  else if c = "security" then 3 / 2
  else if c = "complexity" then 6 / 5
  else if c = "readability" then 1
  else if c = "tests" then 1
  else 0

/-- C3: on the data model's domain (severity among the four weighted tiers,
source llm or static, category among the five fixed names) `compute_impact`
returns exactly the spec's formula severityWeight x sourceConfidence x
categoryReach rounded to two decimals; in particular a static low readability
issue scores 0.70, an llm high correctness issue scores 4.50, and the latter
ranks first. -/
theorem compute_impact_formula :
    (∀ (i : Issue) (cat : String),
      (i.severity = "critical" ∨ i.severity = "high" ∨
        i.severity = "medium" ∨ i.severity = "low") →
      (i.source = some "llm" ∨ i.source = some "static") →
      (cat = "correctness" ∨ cat = "security" ∨ cat = "complexity" ∨
        cat = "readability" ∨ cat = "tests") →
      compute_impact i cat = some (round2 (specSeverityWeight i.severity *
        specSourceConfidence (i.source.getD "llm") * specCategoryReach cat))) ∧
    compute_impact exStaticLow "readability" = some (7 / 10) ∧
    compute_impact exLlmHigh "correctness" = some (9 / 2) ∧
    rank_reviews [("correctness", [exLlmHigh]), ("readability", [exStaticLow])] =
      some [{ issue := exLlmHigh, category := "correctness", impact := 9 / 2 },
        { issue := exStaticLow, category := "readability", impact := 7 / 10 }] := by
  have h1 : compute_impact exStaticLow "readability" = some (7 / 10) := by
    simp [compute_impact, SEVERITY_WEIGHT_find, CATEGORY_REACH_get, exStaticLow, round2, round_eq]
    norm_num
  have h2 : compute_impact exLlmHigh "correctness" = some (9 / 2) := by
    simp [compute_impact, SEVERITY_WEIGHT_find, CATEGORY_REACH_get, exLlmHigh, round2, round_eq]
    norm_num
  refine ⟨?_, h1, h2, ?_⟩
  · intro i cat hsev hsrc hcat
    rcases hsrc with hsrc | hsrc <;>
      rcases hsev with hsev | hsev | hsev | hsev <;>
        rcases hcat with hcat | hcat | hcat | hcat | hcat <;>
          simp [compute_impact, SEVERITY_WEIGHT_find, CATEGORY_REACH_get,
            specSeverityWeight, specSourceConfidence, specCategoryReach, hsev, hsrc, hcat]
  · rw [rank_reviews]
    rw [show annotate [("correctness", [exLlmHigh]), ("readability", [exStaticLow])] =
      some [{ issue := exLlmHigh, category := "correctness", impact := 9 / 2 },
        { issue := exStaticLow, category := "readability", impact := 7 / 10 }] from by
      simp only [annotate, annotateBucket, h1, h2]
      rfl]
    rw [Option.map]
    simp only [List.insertionSort, List.orderedInsert]
    rw [if_pos (by norm_num [impactGe] : impactGe
      { issue := exLlmHigh, category := "correctness", impact := 9 / 2 }
      { issue := exStaticLow, category := "readability", impact := 7 / 10 })]

theorem compute_impact_formula_witness :
    compute_impact exLlmHigh "correctness" =
      some (round2 (specSeverityWeight (Issue.severity exLlmHigh) *
        specSourceConfidence ((Issue.source exLlmHigh).getD "llm") *
        specCategoryReach "correctness")) :=
  compute_impact_formula.1 exLlmHigh "correctness" (by decide) (by decide) (by decide)

/-- C9: `compute_impact` treats a missing source exactly as source llm,
treats every source other than "llm" exactly as source "static" (confidence
0.7), and gives every category outside the five fixed names reach 1.0. -/
theorem compute_impact_defaults :
    ∀ (i : Issue) (cat : String),
      (i.source = none →
        compute_impact i cat = compute_impact { i with source := some "llm" } cat) ∧
      (∀ s, s ≠ "llm" →
        compute_impact { i with source := some s } cat =
          compute_impact { i with source := some "static" } cat) ∧
      (cat ≠ "correctness" → cat ≠ "security" → cat ≠ "complexity" →
        cat ≠ "readability" → cat ≠ "tests" → CATEGORY_REACH_get cat = 1) := by
  intro i cat
  refine ⟨fun h => ?_, fun s hs => ?_, fun h1 h2 h3 h4 h5 => ?_⟩
  · simp only [compute_impact, stamp_severity, h, Option.getD_none, Option.getD_some]
  · simp only [compute_impact, stamp_severity]
    have : ({ i with source := some s } : Issue).source.getD "llm" = s := rfl
    rw [this]
    have : ({ i with source := some "static" } : Issue).source.getD "llm" = "static" := rfl
    rw [this]
    rw [if_neg hs, if_neg (by decide : ¬ ("static" : String) = "llm")]
  · simp [CATEGORY_REACH_get, h1, h2, h3, h4, h5]

theorem compute_impact_defaults_witness :
    (compute_impact { severity := "high" } "docs" =
      compute_impact { severity := "high", source := some "llm" } "docs") ∧
    (compute_impact { severity := "high", source := some "groq" } "docs" =
      compute_impact { severity := "high", source := some "static" } "docs") ∧
    CATEGORY_REACH_get "docs" = 1 :=
  ⟨(compute_impact_defaults { severity := "high" } "docs").1 rfl,
    (compute_impact_defaults { severity := "high" } "docs").2.1 "groq" (by decide),
    (compute_impact_defaults { severity := "high" } "docs").2.2 (by decide) (by decide)
      (by decide) (by decide) (by decide)⟩

def openBraceChar : Char := Char.ofNat 123

def closeBraceChar : Char := Char.ofNat 125

def quoteChar : Char := Char.ofNat 34

def backslashChar : Char := Char.ofNat 92

/-- JSON values as `json.loads` produces them; numbers are restricted to the
integers the reviewer schema uses. -/
inductive Json where
  | null : Json
  | bool (b : Bool) : Json
  | num (n : Int) : Json
  | str (s : String) : Json
  | arr (xs : List Json) : Json
  | obj (kvs : List (String × Json)) : Json

/-- JSON whitespace. -/
def jsonWs (c : Char) : Bool :=
  c = ' ' || c = '\t' || c = '\n' || c = '\r'

def skipWs (cs : List Char) : List Char :=
  cs.dropWhile jsonWs

/-- Body of a JSON string after the opening quote, with the escapes the
reviewer output uses. -/
def parseStringBody : Nat → List Char → List Char → Option (String × List Char)
  | 0, _, _ => none
  | _ + 1, [], _ => none
  | fuel + 1, c :: rest, acc =>
    if c = quoteChar then some (String.mk acc.reverse, rest)
    else if c = backslashChar then
      match rest with
      | [] => none
      | e :: rest2 =>
        if e = quoteChar then parseStringBody fuel rest2 (quoteChar :: acc)
        else if e = backslashChar then parseStringBody fuel rest2 (backslashChar :: acc)
        else if e = 'n' then parseStringBody fuel rest2 ('\n' :: acc)
        else if e = 't' then parseStringBody fuel rest2 ('\t' :: acc)
        else if e = '/' then parseStringBody fuel rest2 ('/' :: acc)
        else none
    else parseStringBody fuel rest (c :: acc)

/-- Decimal digit run of a JSON integer. -/
def parseDigits : List Char → Nat → Bool → Option (Nat × List Char)
  | [], acc, seen => if seen then some (acc, []) else none
  | c :: rest, acc, seen =>
    if c.isDigit then parseDigits rest (acc * 10 + (c.toNat - 48)) true
    else if seen then some (acc, c :: rest) else none

mutual

/-- Recursive-descent JSON value parser (a model of `json.loads`); the fuel
decreases on every call and any starting fuel above four times the input
length is sufficient. -/
def parseValue : Nat → List Char → Option (Json × List Char)
  | 0, _ => none
  | fuel + 1, cs =>
    match skipWs cs with
    | [] => none
    | c :: rest =>
      if c = quoteChar then
        match parseStringBody (fuel + 1) rest [] with
        | some (s, rest2) => some (.str s, rest2)
        | none => none
      else if c = openBraceChar then parseObjItems fuel (skipWs rest) []
      else if c = '[' then parseArrItems fuel (skipWs rest) []
      else if c = 'n' then
        match rest with
        | 'u' :: 'l' :: 'l' :: rest2 => some (.null, rest2)
        | _ => none
      else if c = 't' then
        match rest with
        | 'r' :: 'u' :: 'e' :: rest2 => some (.bool true, rest2)
        | _ => none
      else if c = 'f' then
        match rest with
        | 'a' :: 'l' :: 's' :: 'e' :: rest2 => some (.bool false, rest2)
        | _ => none
      else if c = '-' then
        match parseDigits rest 0 false with
        | some (n, rest2) => some (.num (-(n : Int)), rest2)
        | none => none
      else
        match parseDigits (c :: rest) 0 false with
        | some (n, rest2) => some (.num (n : Int), rest2)
        | none => none

/-- Members of a JSON object, positioned after the opening brace (and after
any member separator), whitespace already skipped. -/
def parseObjItems : Nat → List Char → List (String × Json) →
    Option (Json × List Char)
  | 0, _, _ => none
  | _ + 1, [], _ => none
  | fuel + 1, c :: rest, acc =>
    if c = closeBraceChar then
      (if acc.isEmpty then some (.obj [], rest) else none)
    else if c = quoteChar then
      match parseStringBody fuel rest [] with
      | none => none
      | some (k, rest2) =>
        match skipWs rest2 with
        | ':' :: rest3 =>
          match parseValue fuel rest3 with
          | none => none
          | some (v, rest4) =>
            match skipWs rest4 with
            | ',' :: rest5 => parseObjItems fuel (skipWs rest5) ((k, v) :: acc)
            | d :: rest5 =>
              if d = closeBraceChar then some (.obj ((k, v) :: acc).reverse, rest5)
              else none
            | [] => none
        | _ => none
    else none

/-- Elements of a JSON array, positioned after the opening bracket (and after
any separator), whitespace already skipped. -/
def parseArrItems : Nat → List Char → List Json → Option (Json × List Char)
  | 0, _, _ => none
  | _ + 1, [], _ => none
  | fuel + 1, c :: rest, acc =>
    if c = ']' then
      (if acc.isEmpty then some (.arr [], rest) else none)
    else
      match parseValue fuel (c :: rest) with
      | none => none
      | some (v, rest2) =>
        match skipWs rest2 with
        | ',' :: rest3 => parseArrItems fuel (skipWs rest3) (v :: acc)
        | ']' :: rest3 => some (.arr (v :: acc).reverse, rest3)
        | _ => none

end

/-- A model of `json.loads`: parse one value and require that only whitespace
remains (trailing garbage is a parse error). -/
def parseJsonChars (cs : List Char) : Option Json :=
  match parseValue (4 * cs.length + 4) cs with
  | some (v, rest) => if skipWs rest = [] then some v else none
  | none => none

/-- Python's `"k" in parsed` on a parsed JSON object. -/
def jsonHasKey (kvs : List (String × Json)) (k : String) : Bool :=
  kvs.any (fun kv => kv.1 = k)

/-- The greedy regex search `re.search(r"\x7b.*\x7d", raw_output, re.DOTALL)`
of `review_file_with_llm`: the span from the first opening brace to the last
closing brace, when the latter does not precede the former. -/
def extractJsonSpan (cs : List Char) : Option (List Char) :=
  let after := cs.dropWhile (fun c => c ≠ openBraceChar)
  if after = [] then none
  else
    let rev := after.reverse.dropWhile (fun c => c ≠ closeBraceChar)
    if rev = [] then none else some rev.reverse

/-- Modelled from the spec: the first balanced brace span of the raw output
(depth counting from the first opening brace), used only to compare the
spec's parsing policy with the code's. -/
def balancedSpanGo : List Char → Nat → List Char → Option (List Char)
  | [], _, _ => none
  | c :: rest, depth, acc =>
    if c = openBraceChar then balancedSpanGo rest (depth + 1) (c :: acc)
    else if c = closeBraceChar then
      if depth = 1 then some (c :: acc).reverse
      else if depth = 0 then none
      else balancedSpanGo rest (depth - 1) (c :: acc)
    else balancedSpanGo rest depth (c :: acc)

/-- Modelled from the spec: locate the first balanced `\x7b...\x7d` span. -/
def firstBalancedSpan (cs : List Char) : Option (List Char) :=
  balancedSpanGo (cs.dropWhile (fun c => c ≠ openBraceChar)) 0 []

/-- The schema validation tail of `review_file_with_llm` (the
`isinstance(parsed, dict)` check and the `"file" not in parsed or "reviews"
not in parsed` check). -/
def validateParsed (parsed : Json) : Except String Json :=
  match parsed with
  | .obj kvs =>
    if jsonHasKey kvs "file" && jsonHasKey kvs "reviews" then .ok parsed
    else .error "Invalid schema returned by LLM"
  | _ => .error "LLM response must be a JSON object"

/-- The parsing tail of `review_file_with_llm` (lines 165-186 of
`backend/llm/reviewer.py`): regex-extract a span from the raw output,
`json.loads` it, then validate. -/
def parseLLMOutput (raw : String) : Except String Json :=
  match extractJsonSpan raw.data with
  | none => .error "LLM returned invalid JSON"
  | some span =>
    match parseJsonChars span with
    | none => .error "LLM returned invalid JSON"
    | some parsed => validateParsed parsed

theorem dropWhile_append_of_forall {α : Type} (p : α → Bool) (a l : List α)
    (h : ∀ c ∈ a, p c = true) : (a ++ l).dropWhile p = l.dropWhile p := by
  induction a with
  | nil => rfl
  | cons x a0 ih =>
    rw [List.cons_append, List.dropWhile_cons, if_pos (h x (List.mem_cons_self _ _))]
    exact ih (fun c hc => h c (List.mem_cons_of_mem _ hc))

/-- The greedy extraction on a raw output of shape `a ++ span ++ b` with no
opening brace in `a`, no closing brace in `b`, and `span` delimited by
braces, yields exactly `span`. -/
theorem extractJsonSpan_sandwich (a span b : List Char)
    (ha : ∀ c ∈ a, c ≠ openBraceChar) (hb : ∀ c ∈ b, c ≠ closeBraceChar)
    (h1 : span.head? = some openBraceChar) (h2 : span.getLast? = some closeBraceChar) :
    extractJsonSpan (a ++ span ++ b) = some span := by
  obtain ⟨s0, stail, hspan⟩ : ∃ s0 stail, span = s0 :: stail := by
    cases span with
    | nil => simp at h1
    | cons s0 stail => exact ⟨s0, stail, rfl⟩
  have hs0 : s0 = openBraceChar := by
    rw [hspan] at h1
    simpa using h1
  have hafter : (a ++ span ++ b).dropWhile (fun c => c ≠ openBraceChar) = span ++ b := by
    rw [List.append_assoc,
      dropWhile_append_of_forall _ a (span ++ b) (fun c hc => by simpa using ha c hc),
      hspan, List.cons_append, List.dropWhile_cons, if_neg (by simp [hs0])]
  obtain ⟨r0, rtail, hrev⟩ : ∃ r0 rtail, span.reverse = r0 :: rtail := by
    cases hs : span.reverse with
    | nil =>
      rw [List.reverse_eq_nil_iff] at hs
      rw [hs] at h1
      simp at h1
    | cons r0 rtail => exact ⟨r0, rtail, rfl⟩
  have hr0 : r0 = closeBraceChar := by
    have := List.head?_reverse span
    rw [hrev, h2] at this
    simpa using this
  have hrevdrop : (span ++ b).reverse.dropWhile (fun c => c ≠ closeBraceChar) =
      span.reverse := by
    rw [List.reverse_append,
      dropWhile_append_of_forall _ b.reverse span.reverse
        (fun c hc => by simpa using hb c (List.mem_reverse.mp hc)),
      hrev, List.dropWhile_cons, if_neg (by simp [hr0])]
  rw [extractJsonSpan]
  simp only [hafter]
  rw [if_neg (by rw [hspan]; simp), hrevdrop, if_neg (by rw [hrev]; simp),
    List.reverse_reverse]

/-- C1 amended: the code extracts the greedy regex span — from the first
opening brace to the last closing brace of the raw output — rather than the
first balanced span; whenever that greedy span is a JSON object carrying
`file` and `reviews` (in particular when no closing brace follows the object,
as in the spec's prose-wrapped scenario), the parse succeeds with that
object, and a failed parse raises the invalid-JSON error without retrying. -/
theorem parseLLMOutput_greedy_span (a span b : List Char) (kvs : List (String × Json))
    (ha : ∀ c ∈ a, c ≠ openBraceChar) (hb : ∀ c ∈ b, c ≠ closeBraceChar)
    (h1 : span.head? = some openBraceChar) (h2 : span.getLast? = some closeBraceChar)
    (hp : parseJsonChars span = some (Json.obj kvs))
    (hk : (jsonHasKey kvs "file" && jsonHasKey kvs "reviews") = true) :
    parseLLMOutput (String.mk (a ++ span ++ b)) = Except.ok (Json.obj kvs) := by
  have he : extractJsonSpan (String.mk (a ++ span ++ b)).data = some span :=
    extractJsonSpan_sandwich a span b ha hb h1 h2
  simp only [parseLLMOutput, he, hp, validateParsed, hk, if_true]

/-- Reviewer object of the spec's prose-wrapped scenario. -/
def spanProse : String := "\x7b\"file\":\"a.py\",\"reviews\":\x7b\x7d\x7d"

theorem parseLLMOutput_greedy_span_witness :
    parseLLMOutput
        (String.mk ("Here is the result:\n".data ++ spanProse.data ++ "\nThanks!".data)) =
      Except.ok (Json.obj [("file", Json.str "a.py"), ("reviews", Json.obj [])]) :=
  parseLLMOutput_greedy_span "Here is the result:\n".data spanProse.data "\nThanks!".data
    [("file", Json.str "a.py"), ("reviews", Json.obj [])]
    (by decide) (by decide) (by decide) (by decide) rfl rfl

/-- Raw reviewer output wrapping a complete valid object in prose whose
trailing text contains one more closing brace. -/
def rawC1 : String := "Json follows: \x7b\"file\":\"a.py\",\"reviews\":\x7b\x7d\x7d tail\x7d"

/-- Reviewer object embedded in `rawC1`: its first balanced brace span. -/
def spanC1 : String := "\x7b\"file\":\"a.py\",\"reviews\":\x7b\x7d\x7d"

/-- C1 counterexample: on a raw output which wraps a valid reviewer object in
leading and trailing prose, where the trailing prose contains a closing
brace, the first balanced span is a valid object with `file` and `reviews`
(so the claimed policy parses successfully), but `review_file_with_llm`'s
greedy extraction spans to the last brace of the prose and fails with the
invalid-JSON error. -/
theorem parseLLMOutput_not_first_balanced :
    firstBalancedSpan rawC1.data = some spanC1.data ∧
    parseJsonChars spanC1.data =
      some (Json.obj [("file", Json.str "a.py"), ("reviews", Json.obj [])]) ∧
    (jsonHasKey [("file", Json.str "a.py"), ("reviews", Json.obj [])] "file" &&
      jsonHasKey [("file", Json.str "a.py"), ("reviews", Json.obj [])] "reviews") = true ∧
    parseLLMOutput rawC1 = Except.error "LLM returned invalid JSON" :=
  ⟨rfl, rfl, rfl, rfl⟩

/-- Parsed reviewer output violating the output contract: a wrong category
key under `reviews` and an extra key inside the issue object. -/
def rawC4 : String :=
  "\x7b\"file\":\"a.py\",\"reviews\":\x7b\"bogus\":[\x7b\"line\":1,\"severity\":\"low\",\"message\":\"m\",\"rule\":null,\"extra\":true\x7d]\x7d\x7d"

/-- C4 counterexample: a parsed output with a wrong category key under
`reviews` and an extra key inside an issue object is returned as a valid
review result instead of failing with an invalid-output error. -/
theorem validateParsed_counterexample :
    parseLLMOutput rawC4 =
      Except.ok (Json.obj [("file", Json.str "a.py"),
        ("reviews", Json.obj [("bogus", Json.arr [Json.obj
          [("line", Json.num 1), ("severity", Json.str "low"),
            ("message", Json.str "m"), ("rule", Json.null),
            ("extra", Json.bool true)]])])]) := rfl

/-- C4 amended: the only schema checks applied to the parsed reviewer output
are that the top level is a JSON object and that it contains the keys `file`
and `reviews`; any object with those two keys — whatever its category keys or
issue shapes — passes validation, and only a non-object top level or a
missing `file`/`reviews` key is rejected. -/
theorem validateParsed_characterization :
    (∀ kvs : List (String × Json),
      (jsonHasKey kvs "file" && jsonHasKey kvs "reviews") = true →
      validateParsed (Json.obj kvs) = Except.ok (Json.obj kvs)) ∧
    (∀ kvs : List (String × Json),
      (jsonHasKey kvs "file" && jsonHasKey kvs "reviews") = false →
      validateParsed (Json.obj kvs) = Except.error "Invalid schema returned by LLM") ∧
    (∀ j : Json, (match j with | Json.obj _ => False | _ => True) →
      validateParsed j = Except.error "LLM response must be a JSON object") := by
  refine ⟨fun kvs h => ?_, fun kvs h => ?_, fun j hj => ?_⟩
  · simp only [validateParsed, h, if_true]
  · simp only [validateParsed, h, Bool.false_eq_true, if_false]
  · cases j with
    | obj kvs => exact absurd hj not_false
    | null => rfl
    | bool b => rfl
    | num n => rfl
    | str s => rfl
    | arr xs => rfl

theorem validateParsed_characterization_witness :
    validateParsed (Json.obj [("file", Json.str "a.py"),
        ("reviews", Json.obj [("bogus", Json.arr [])]), ("surprise", Json.num 7)]) =
      Except.ok (Json.obj [("file", Json.str "a.py"),
        ("reviews", Json.obj [("bogus", Json.arr [])]), ("surprise", Json.num 7)]) :=
  validateParsed_characterization.1
    [("file", Json.str "a.py"), ("reviews", Json.obj [("bogus", Json.arr [])]),
      ("surprise", Json.num 7)] rfl

/-- The constant `MAX_RETRIES` of `backend/llm/reviewer.py`. -/
def MAX_RETRIES : Nat := 3

/-- The constant `INITIAL_BACKOFF` (seconds). -/
def INITIAL_BACKOFF : ℚ := 1

/-- The constant `MAX_FILE_BYTES`. -/
def MAX_FILE_BYTES : Nat := 50000

/-- The constant `MAX_PROMPT_CHARS`. -/
def MAX_PROMPT_CHARS : Nat := 12000

/-- The four exception classes the retry loop catches (APITimeoutError,
RateLimitError, APIConnectionError, InternalServerError); the code treats
them all as retryable, differing only in log level. -/
inductive TransientKind where
  | timeout : TransientKind
  | rateLimit : TransientKind
  | connection : TransientKind
  | serverError : TransientKind
deriving DecidableEq

/-- Outcome of one network request to the remote reviewer. -/
inductive NetOutcome where
  | success (raw : String) : NetOutcome
  | transient (k : TransientKind) : NetOutcome
deriving DecidableEq

/-- The `while True` retry loop of `review_file_with_llm`: on success break
with the raw output; on a caught transient error increment `attempt`, raise
the retries-exhausted error once `attempt` reaches `MAX_RETRIES`, otherwise
sleep for `backoff` and double it.  The oracle maps the attempt index to that
request's outcome.  Returns the result, the number of requests made, and the
chronological sleep delays.  The fuel starts at `MAX_RETRIES` and is
sufficient because `attempt` grows by one per iteration and the loop stops at
`MAX_RETRIES`; the fuel-exhausted branch is unreachable. -/
def retryGo (oracle : Nat → NetOutcome) :
    Nat → Nat → ℚ → List ℚ → Except String String × Nat × List ℚ
  | 0, attempt, _, sleeps =>
    (.error "LLM request failed after retries", attempt, sleeps.reverse)
  | fuel + 1, attempt, backoff, sleeps =>
    match oracle attempt with
    | .success raw => (.ok raw, attempt + 1, sleeps.reverse)
    | .transient _ =>
      if MAX_RETRIES ≤ attempt + 1 then
        (.error "LLM request failed after retries", attempt + 1, sleeps.reverse)
      else retryGo oracle fuel (attempt + 1) (backoff * 2) (backoff :: sleeps)

/-- The retry loop entered with `attempt = 0` and
`backoff = INITIAL_BACKOFF`. -/
def retryLoop (oracle : Nat → NetOutcome) : Except String String × Nat × List ℚ :=
  retryGo oracle MAX_RETRIES 0 INITIAL_BACKOFF []

/-- Python `str.strip()` whitespace. -/
def isPySpace (c : Char) : Bool :=
  c = ' ' || c = '\t' || c = '\n' || c = '\r' || c = '\x0b' || c = '\x0c'

/-- Python's `str.strip()`: remove leading and trailing whitespace. -/
def pyStrip (s : String) : String :=
  String.mk (((s.data.dropWhile isPySpace).reverse.dropWhile isPySpace).reverse)

/-- UTF-8 byte count of one scalar value, as `len(content.encode("utf-8"))`
counts it. -/
def utf8Bytes (c : Char) : Nat :=
  if c.toNat < 128 then 1
  else if c.toNat < 2048 then 2
  else if c.toNat < 65536 then 3
  else 4

/-- Byte length of the UTF-8 encoding of a string. -/
def utf8Len (s : String) : Nat :=
  (s.data.map utf8Bytes).sum

/-- One entry of a ruleset's `rules` list in
`backend/rulesets/registry.py`. -/
structure RulesetRule where
  id : String
  description : String
  severity : String
  link : String

/-- One ruleset of the registry. -/
structure Ruleset where
  name : String
  description : String
  link : String
  language : String
  categories : List String
  rules : List RulesetRule

/-- The `RULESETS` table of `backend/rulesets/registry.py`. -/
def RULESETS : List (String × Ruleset) :=
  [("pep8",
    { name := "PEP 8 – Python Style Guide",
      description := "Official Python style guide for readable, consistent Python code.",
      link := "https://peps.python.org/pep-0008/",
      language := "python",
      categories := ["readability", "complexity"],
      rules :=
        [{ id := "PEP8-E302",
           description := "Expected 2 blank lines between top-level definitions",
           severity := "low",
           link := "https://peps.python.org/pep-0008/#blank-lines" },
         { id := "PEP8-E501",
           description := "Line too long (>79 characters)",
           severity := "medium",
           link := "https://peps.python.org/pep-0008/#maximum-line-length" }] }),
   ("owasp-top-10",
    { name := "OWASP Top 10",
      description := "Top 10 most critical web application security risks.",
      link := "https://owasp.org/Top10/",
      language := "any",
      categories := ["security"],
      rules :=
        [{ id := "A01",
           description := "Broken Access Control",
           severity := "high",
           link := "https://owasp.org/Top10/A01_2021-Broken_Access_Control/" },
         { id := "A03",
           description := "Injection",
           severity := "high",
           link := "https://owasp.org/Top10/A03_2021-Injection/" }] }),
   ("react-hooks",
    { name := "React Hooks Rules",
      description := "Rules that ensure correct usage of React Hooks.",
      link := "https://react.dev/reference/rules/rules-of-hooks",
      language := "javascript",
      categories := ["correctness"],
      rules :=
        [{ id := "RH-01",
           description := "Hooks must be called at the top level",
           severity := "high",
           link := "https://react.dev/reference/rules/rules-of-hooks" },
         { id := "RH-02",
           description := "Hooks must be called from React function components or custom hooks",
           severity := "high",
           link := "https://react.dev/reference/rules/rules-of-hooks" }] })]

/-- Python's `ruleset in RULESETS` (dict key membership). -/
def RULESETS_contains (r : String) : Bool :=
  RULESETS.any (fun kv => kv.1 = r)

/-- Python's `RULESETS[ruleset]`. -/
def RULESETS_find (r : String) : Option Ruleset :=
  (RULESETS.find? (fun kv => kv.1 = r)).map Prod.snd

/-- One entry of the `rules_lines` list built for the prompt. -/
def ruleLines (r : RulesetRule) : String :=
  "- ID: " ++ r.id ++ "\n" ++
  "  Description: " ++ r.description ++ "\n" ++
  "  Severity: " ++ r.severity ++ "\n" ++
  "  Reference: " ++ r.link

/-- The `ruleset_block` string built when a ruleset is active. -/
def rulesetBlock (rs : Ruleset) : String :=
  "Active ruleset:\n" ++
  "Name: " ++ rs.name ++ "\n" ++
  "Applicable categories: " ++ String.intercalate ", " rs.categories ++ "\n\n" ++
  "Enforced rules (use ONLY these):\n" ++
  String.intercalate "\n" (rs.rules.map ruleLines)

/-- The stripped `JSON_SCHEMA` literal of `backend/llm/reviewer.py`. -/
def JSON_SCHEMA : String :=
  String.intercalate "\n"
    ["\x7b",
     "  \"file\": \"<string>\",",
     "  \"reviews\": \x7b",
     "    \"correctness\": [",
     "      \x7b",
     "        \"line\": <number>,",
     "        \"severity\": \"<low|medium|high>\",",
     "        \"message\": \"<string>\",",
     "        \"rule\": \x7b",
     "          \"id\": \"<string>\",",
     "          \"link\": \"<string>\"",
     "        \x7d | null",
     "      \x7d",
     "    ],",
     "    \"security\": [],",
     "    \"complexity\": [],",
     "    \"readability\": [],",
     "    \"tests\": []",
     "  \x7d",
     "\x7d"]

/-- The fixed prompt text between the ruleset block and the JSON schema. -/
def promptRules : String :=
  "\n\nReview the following file and report issues in these categories ONLY:\n" ++
  "- correctness\n- security\n- complexity\n- readability\n- tests\n\n" ++
  "ABSOLUTE RULES:\n" ++
  "- Return ONE JSON OBJECT (not an array)\n" ++
  "- Return ONLY valid JSON, no text outside it\n" ++
  "- Follow the schema EXACTLY\n" ++
  "- Do NOT add extra keys\n" ++
  "- Each issue object MUST contain ONLY:\n" ++
  "  - line (number)\n" ++
  "  - severity (\"low\" | \"medium\" | \"high\")\n" ++
  "  - message (non-empty string)\n" ++
  "- If a category has no issues, return an empty array\n" ++
  "- If an issue matches an enforced rule, you MUST:\n" ++
  "  - include the rule ID and link inside the \"rule\" object\n" ++
  "- If no rule applies, set \"rule\" to null\n" ++
  "- NEVER mention rule IDs or links inside \"message\"\n\n" ++
  "JSON schema:\n"

/-- The prompt f-string of `review_file_with_llm` followed by `.strip()`;
the `language` argument is not interpolated anywhere in the code's
template. -/
def buildPrompt (ruleset_block file_path file_content : String) : String :=
  pyStrip ("\nYou are a strict senior code reviewer.\n\n" ++ ruleset_block ++
    promptRules ++ JSON_SCHEMA ++
    "\n\nFile path: " ++ file_path ++
    "\n\nFile content:\n" ++ file_content ++ "\n")

/-- Python truthiness of the `ruleset: str | None` argument (`None` and the
empty string are falsy). -/
def rulesetTruthy : Option String → Bool
  | none => false
  | some s => if s = "" then false else true

/-- `review_file_with_llm` from `backend/llm/reviewer.py`: validate the
ruleset, enforce the content byte ceiling, assemble the prompt, enforce the
prompt character cap, then run the retry loop and parse the raw output.  The
Groq network call is abstracted as an oracle from attempt index to outcome;
the result carries the number of network requests made and the chronological
backoff sleeps. -/
def review_file_with_llm (file_path language file_content : String)
    (ruleset : Option String) (oracle : Nat → NetOutcome) :
    Except String Json × Nat × List ℚ :=
  if rulesetTruthy ruleset && !(RULESETS_contains (ruleset.getD "")) then
    (.error ("Unknown ruleset: " ++ ruleset.getD ""), 0, [])
  else if MAX_FILE_BYTES < utf8Len file_content then
    (.error "File too large for LLM review", 0, [])
  else
    let ruleset_block :=
      if rulesetTruthy ruleset then
        match RULESETS_find (ruleset.getD "") with
        | some rs => rulesetBlock rs
        | none => ""
      else ""
    let prompt := buildPrompt ruleset_block file_path file_content
    if MAX_PROMPT_CHARS < prompt.length then
      (.error "Prompt too large", 0, [])
    else
      match retryLoop oracle with
      | (.ok raw, n, sleeps) => (parseLLMOutput (pyStrip raw), n, sleeps)
      | (.error e, n, sleeps) => (.error e, n, sleeps)

/-- Lower-case letter used to build large concrete file contents. -/
def aChar : Char := Char.ofNat 97

/-- The fixed prompt text that follows the leading newline and the letter Y
when no ruleset is active and the file path is `big.py`. -/
def promptFixedTail : String :=
  "ou are a strict senior code reviewer.\n\n" ++ promptRules ++ JSON_SCHEMA ++
  "\n\nFile path: big.py\n\nFile content:\n"

theorem dropWhile_replicate_append (p : Char → Bool) (c : Char) (n : Nat) (l : List Char)
    (hn : 0 < n) (h : p c = false) :
    (List.replicate n c ++ l).dropWhile p = List.replicate n c ++ l := by
  cases n with
  | zero => omega
  | succ m =>
    rw [List.replicate_succ, List.cons_append, List.dropWhile_cons, if_neg (by simp [h])]

set_option maxRecDepth 40000 in
theorem buildPrompt_replicate_length (n : Nat) (hn : 0 < n) :
    (buildPrompt "" "big.py" (String.mk (List.replicate n aChar))).length = 1116 + n := by
  have hdata : ("\nYou are a strict senior code reviewer.\n\n" ++ "" ++ promptRules ++
      JSON_SCHEMA ++ "\n\nFile path: " ++ "big.py" ++ "\n\nFile content:\n" ++
      String.mk (List.replicate n aChar) ++ "\n").data =
      '\n' :: 'Y' :: (promptFixedTail.data ++ (List.replicate n aChar ++ ['\n'])) := rfl
  have hlen : promptFixedTail.data.length = 1115 := by decide
  have hdw : List.dropWhile isPySpace
      ('\n' :: 'Y' :: (promptFixedTail.data ++ (List.replicate n aChar ++ ['\n']))) =
      'Y' :: (promptFixedTail.data ++ (List.replicate n aChar ++ ['\n'])) := by
    rw [List.dropWhile_cons, if_pos (by decide), List.dropWhile_cons, if_neg (by decide)]
  have hrev : ('Y' :: (promptFixedTail.data ++ (List.replicate n aChar ++ ['\n']))).reverse =
      '\n' :: (List.replicate n aChar ++ (promptFixedTail.data.reverse ++ ['Y'])) := by
    rw [List.reverse_cons, List.reverse_append, List.reverse_append, List.reverse_replicate]
    simp [List.append_assoc]
  have hdw2 : List.dropWhile isPySpace
      ('\n' :: (List.replicate n aChar ++ (promptFixedTail.data.reverse ++ ['Y']))) =
      List.replicate n aChar ++ (promptFixedTail.data.reverse ++ ['Y']) := by
    rw [List.dropWhile_cons, if_pos (by decide)]
    exact dropWhile_replicate_append isPySpace aChar n _ hn (by decide)
  simp only [buildPrompt, pyStrip]
  rw [hdata, hdw, hrev, hdw2, String.length_mk, List.length_reverse, List.length_append,
    List.length_append, List.length_replicate, List.length_reverse, hlen,
    List.length_singleton]
  omega

theorem utf8Len_replicate (n : Nat) (c : Char) (h : utf8Bytes c = 1) :
    utf8Len (String.mk (List.replicate n c)) = n := by
  simp [utf8Len, List.map_replicate, h, List.sum_replicate, smul_eq_mul]

/-- C7: `review_file_with_llm` rejects before any network call and without
any retry (zero requests, zero sleeps): a truthy ruleset absent from the
ruleset table, content whose UTF-8 byte size exceeds `MAX_FILE_BYTES`, and an
assembled prompt longer than `MAX_PROMPT_CHARS` characters, each with its
specific error. -/
theorem review_preconditions :
    (∀ (fp lang content r : String) (oracle : Nat → NetOutcome),
      rulesetTruthy (some r) = true → RULESETS_contains r = false →
      review_file_with_llm fp lang content (some r) oracle =
        (.error ("Unknown ruleset: " ++ r), 0, [])) ∧
    (∀ (fp lang content : String) (rs : Option String) (oracle : Nat → NetOutcome),
      (rulesetTruthy rs = false ∨ RULESETS_contains (rs.getD "") = true) →
      MAX_FILE_BYTES < utf8Len content →
      review_file_with_llm fp lang content rs oracle =
        (.error "File too large for LLM review", 0, [])) ∧
    (∀ (fp lang content : String) (oracle : Nat → NetOutcome),
      utf8Len content ≤ MAX_FILE_BYTES →
      MAX_PROMPT_CHARS < (buildPrompt "" fp content).length →
      review_file_with_llm fp lang content none oracle =
        (.error "Prompt too large", 0, [])) := by
  refine ⟨fun fp lang content r oracle h1 h2 => ?_, fun fp lang content rs oracle h1 h2 => ?_,
    fun fp lang content oracle h1 h2 => ?_⟩
  · simp only [review_file_with_llm, Option.getD_some]
    rw [if_pos (by rw [h1, h2]; rfl)]
  · simp only [review_file_with_llm]
    rcases h1 with h1 | h1
    · rw [if_neg (by rw [h1]; simp), if_pos h2]
    · rw [if_neg (by rw [h1]; simp), if_pos h2]
  · simp only [review_file_with_llm]
    rw [if_neg (by rw [show rulesetTruthy none = false from rfl]; simp),
      if_neg (Nat.not_lt.mpr h1)]
    simp only [show rulesetTruthy none = false from rfl, Bool.false_eq_true, if_false]
    rw [if_pos h2]

/-- Oracle whose every request times out. -/
def oracleTimeout : Nat → NetOutcome := fun _ => NetOutcome.transient TransientKind.timeout

theorem review_preconditions_witness :
    review_file_with_llm "a.py" "python" "x = 1\n" (some "nope") oracleTimeout =
      (.error ("Unknown ruleset: " ++ "nope"), 0, []) ∧
    review_file_with_llm "a.py" "python" (String.mk (List.replicate 50001 aChar)) none
        oracleTimeout = (.error "File too large for LLM review", 0, []) ∧
    review_file_with_llm "big.py" "python" (String.mk (List.replicate 11000 aChar)) none
        oracleTimeout = (.error "Prompt too large", 0, []) :=
  ⟨review_preconditions.1 "a.py" "python" "x = 1\n" "nope" oracleTimeout rfl rfl,
   review_preconditions.2.1 "a.py" "python" (String.mk (List.replicate 50001 aChar)) none
     oracleTimeout (Or.inl rfl)
     (by rw [utf8Len_replicate 50001 aChar rfl]; norm_num [MAX_FILE_BYTES]),
   review_preconditions.2.2 "big.py" "python" (String.mk (List.replicate 11000 aChar))
     oracleTimeout
     (by rw [utf8Len_replicate 11000 aChar rfl]; norm_num [MAX_FILE_BYTES])
     (by rw [buildPrompt_replicate_length 11000 (by norm_num)]
         norm_num [MAX_PROMPT_CHARS])⟩

set_option maxRecDepth 40000 in
/-- C6: transient failures are retried with backoff starting at
`INITIAL_BACKOFF` and doubling each attempt, up to `MAX_RETRIES` attempts:
when every attempt fails transiently the loop makes exactly `MAX_RETRIES`
requests, sleeps 1 then 2 seconds, and yields the single
retries-exhausted error; when attempt `n` (`n < MAX_RETRIES`) succeeds after
`n` transient failures the loop returns the payload after `n + 1` requests
having slept `INITIAL_BACKOFF * 2 ^ j` before retry `j + 1`.  In particular
`review_file_with_llm` on a small valid input whose three requests all time
out returns exactly one retries-exhausted error after `MAX_RETRIES`
requests. -/
theorem retryLoop_policy :
    (∀ oracle : Nat → NetOutcome,
      (∀ j, j < MAX_RETRIES → ∃ k, oracle j = NetOutcome.transient k) →
      retryLoop oracle =
        (.error "LLM request failed after retries", MAX_RETRIES, [1, 2])) ∧
    (∀ (oracle : Nat → NetOutcome) (raw : String) (n : Nat), n < MAX_RETRIES →
      (∀ j, j < n → ∃ k, oracle j = NetOutcome.transient k) →
      oracle n = NetOutcome.success raw →
      retryLoop oracle =
        (.ok raw, n + 1, (List.range n).map (fun j => INITIAL_BACKOFF * 2 ^ j))) ∧
    review_file_with_llm "a.py" "python" "x = 1\n" none oracleTimeout =
      (.error "LLM request failed after retries", MAX_RETRIES, [1, 2]) := by
  refine ⟨?_, ?_, ?_⟩
  · intro oracle h
    obtain ⟨k0, h0⟩ := h 0 (by norm_num [MAX_RETRIES])
    obtain ⟨k1, h1⟩ := h 1 (by norm_num [MAX_RETRIES])
    obtain ⟨k2, h2⟩ := h 2 (by norm_num [MAX_RETRIES])
    simp only [retryLoop, MAX_RETRIES, INITIAL_BACKOFF, retryGo, h0, h1, h2]
    norm_num
  · intro oracle raw n hn h hsucc
    have hn3 : n < 3 := hn
    clear hn
    interval_cases n
    · simp only [retryLoop, MAX_RETRIES, INITIAL_BACKOFF, retryGo, hsucc]
      simp
    · obtain ⟨k0, h0⟩ := h 0 (by norm_num)
      simp only [retryLoop, MAX_RETRIES, INITIAL_BACKOFF, retryGo, h0, hsucc]
      norm_num [List.range_succ]
    · obtain ⟨k0, h0⟩ := h 0 (by norm_num)
      obtain ⟨k1, h1⟩ := h 1 (by norm_num)
      simp only [retryLoop, MAX_RETRIES, INITIAL_BACKOFF, retryGo, h0, h1, hsucc]
      norm_num [List.range_succ]
  · have hsmall : ¬ (MAX_FILE_BYTES < utf8Len "x = 1\n") := by decide
    have hprompt : ¬ (MAX_PROMPT_CHARS < (buildPrompt "" "a.py" "x = 1\n").length) := by
      decide
    have hloop : retryLoop oracleTimeout =
        (.error "LLM request failed after retries", 3, [1, 2]) := by
      simp only [retryLoop, MAX_RETRIES, INITIAL_BACKOFF, retryGo, oracleTimeout]
      norm_num
    simp only [review_file_with_llm]
    rw [if_neg (by rw [show rulesetTruthy none = false from rfl]; simp), if_neg hsmall]
    simp only [show rulesetTruthy none = false from rfl, Bool.false_eq_true, if_false]
    rw [if_neg hprompt, hloop]
    rfl

theorem retryLoop_policy_witness :
    retryLoop (fun _ => NetOutcome.transient TransientKind.timeout) =
      (.error "LLM request failed after retries", MAX_RETRIES, [1, 2]) :=
  retryLoop_policy.1 (fun _ => NetOutcome.transient TransientKind.timeout)
    (fun _ _ => ⟨TransientKind.timeout, rfl⟩)

end CodeReviewAssistant
